import Mathlib

/-
Verification development for the genpwd-pro static-analysis utilities.

The repository contains two Python tools:
  * src/tools/legacy_room_audit.py : scans a source tree for references to a
    deprecated Room-based vault stack, aggregating per-pattern findings into a
    report that is printed and persisted as timestamped text/JSON snapshots.
  * src/security_agent.py : a pattern-based security audit of the Android
    manifest, Kotlin/JS sources, Electron configuration files and a generic
    hardcoded-secrets scan.

Each Python regular expression is shallow-embedded as an executable Boolean
search function over lists of characters; file-system walks become functions
over explicit directory listings; report construction becomes a pure function
of the listing and file contents.
-/

set_option maxHeartbeats 1000000

namespace GenPwd

/-- A single line of text, as a list of characters. -/
abbrev Line := List Char

/-- Python whitespace class for the regex token backslash-s and for str.strip:
space, tab, newline, carriage return, vertical tab, form feed. -/
def isPySpace (c : Char) : Bool :=
  c = ' ' || c = '\t' || c = '\n' || c = '\r' || c = Char.ofNat 11 || c = Char.ofNat 12

/-- Python word-character class (regex token backslash-w), ASCII fragment:
letters, digits and underscore. -/
def isWordChar (c : Char) : Bool :=
  c.isAlphanum || c = '_'

/-- Python str.strip(): drop whitespace from both ends of a line. -/
def stripLine (l : Line) : Line :=
  ((l.dropWhile isPySpace).reverse.dropWhile isPySpace).reverse

/-- Python str.lower(), ASCII fragment. -/
def lowerLine (l : Line) : Line := l.map Char.toLower

/-- Decide whether some suffix of the input satisfies the given test.
This models how re.search tries the pattern at every start position. -/
def existsSuffixB (f : Line → Bool) : Line → Bool
  | [] => f []
  | c :: r => f (c :: r) || existsSuffixB f r

/-- Decide whether the input splits as a newline-free gap followed by a part
satisfying the test.  This models a dot-star gap inside a Python regex: the
dot matches any character except newline. -/
def gapSearch (f : Line → Bool) : Line → Bool
  | [] => f []
  | c :: r => f (c :: r) || (decide (c ≠ '\n') && gapSearch f r)

/-- Substring test: the needle occurs somewhere in the haystack.  This models
the Python expression needle in haystack, and re.search of a literal. -/
def containsSub (needle : Line) (s : Line) : Bool :=
  existsSuffixB (fun t => needle.isPrefixOf t) s

/-- The given string literal is a prefix of the character list. -/
def litP (lit : String) (t : Line) : Bool := lit.toList.isPrefixOf t

/-- One regex dot (any character except newline) followed by a literal. -/
def dotThen (post : String) (t : Line) : Bool :=
  match t with
  | [] => false
  | c :: r => decide (c ≠ '\n') && litP post r

/-- Worker for word-boundary search, carrying the previous character.  The
word being sought is assumed to start and end with word characters, which
holds for the two words used in the pattern table. -/
def wordBGo (w : Line) (prev : Option Char) : Line → Bool
  | [] => false
  | c :: r =>
    ((match prev with | none => true | some p => !isWordChar p)
      && w.isPrefixOf (c :: r)
      && (match (c :: r).drop w.length with | [] => true | d :: _ => !isWordChar d))
    || wordBGo w (some c) r

/-- Search for a whole word: the regex word-boundary token, then the literal
word, then another word boundary. -/
def wordBoundarySearch (w : String) (s : Line) : Bool := wordBGo w.toList none s

-- Shallow embeddings of the seven compiled regexes of the PATTERNS table in
-- src/tools/legacy_room_audit.py.

/-- Regex of pattern legacy_vault_repository: the word VaultRepository between
word boundaries. -/
def legacyVaultRepoSearch (s : Line) : Bool := wordBoundarySearch "VaultRepository" s

/-- Regex of pattern room_database_builder.  The raw source pattern contains a
doubled backslash before the dot in each alternative, so each alternative
requires a literal backslash character followed by one arbitrary character:
androidx backslash any room, or Room backslash any databaseBuilder. -/
def roomDatabaseBuilderSearch (s : Line) : Bool :=
  existsSuffixB (fun t => litP "androidx\\" t && dotThen "room" (t.drop 9)) s
    || existsSuffixB (fun t => litP "Room\\" t && dotThen "databaseBuilder" (t.drop 5)) s

/-- First alternative of the room_imports regex: import, a dot-star gap, then
androidx, a literal backslash, one arbitrary character and room. -/
def roomImportsAltRoom (s : Line) : Bool :=
  existsSuffixB (fun t => litP "import" t
    && gapSearch (fun u => litP "androidx\\" u && dotThen "room" (u.drop 9)) (t.drop 6)) s

/-- Second alternative of the room_imports regex: import, a dot-star gap, then
the literal VaultDao. -/
def roomImportsAltDao (s : Line) : Bool :=
  existsSuffixB (fun t => litP "import" t
    && gapSearch (fun u => litP "VaultDao" u) (t.drop 6)) s

/-- Third alternative of the room_imports regex: import, a dot-star gap, then
the literal VaultEntity. -/
def roomImportsAltEntity (s : Line) : Bool :=
  existsSuffixB (fun t => litP "import" t
    && gapSearch (fun u => litP "VaultEntity" u) (t.drop 6)) s

/-- Regex of pattern room_imports: alternation of the three import forms. -/
def roomImportsSearch (s : Line) : Bool :=
  roomImportsAltRoom s || roomImportsAltDao s || roomImportsAltEntity s

/-- Regex of pattern room_annotations: any of the four Room annotations. -/
def roomAnnotationsSearch (s : Line) : Bool :=
  containsSub "@Database".toList s || containsSub "@Entity".toList s
    || containsSub "@Dao".toList s || containsSub "@Query".toList s

/-- Regex of pattern app_database_singletons: the word AppDatabase between
word boundaries. -/
def appDatabaseSearch (s : Line) : Bool := wordBoundarySearch "AppDatabase" s

/-- Regex of pattern flow_vault_entities: Flow angle-open, a gap, Vault then
Entity or Dao, a gap, and a closing angle bracket. -/
def flowVaultSearch (s : Line) : Bool :=
  existsSuffixB (fun t => litP "Flow<" t
    && gapSearch (fun u =>
        (litP "VaultEntity" u && gapSearch (fun v => litP ">" v) (u.drop 11))
          || (litP "VaultDao" u && gapSearch (fun v => litP ">" v) (u.drop 8)))
      (t.drop 5)) s

/-- One-or-more whitespace followed by a part satisfying the test, where the
continuation is assumed to start with a non-whitespace character (true at both
use sites), so the greedy whitespace run is maximal. -/
def spacesThen (f : Line → Bool) (t : Line) : Bool :=
  match t with
  | [] => false
  | c :: _ => isPySpace c && f (t.dropWhile isPySpace)

/-- Tail of the coroutine_dao_calls regex after the closing parenthesis has
been found: a colon, optional whitespace, Flow or List with an opening angle
bracket, then a gap and the literal Vault. -/
def coroutineColonPart (w : Line) : Bool :=
  litP ":" w
    && (let x := (w.drop 1).dropWhile isPySpace
        (litP "Flow<" x || litP "List<" x)
          && gapSearch (fun y => litP "Vault" y) (x.drop 5))

/-- Middle of the coroutine_dao_calls regex: an opening parenthesis, a gap, a
closing parenthesis, then a gap and the colon part. -/
def coroutineParenPart (u : Line) : Bool :=
  litP "(" u
    && gapSearch (fun v => litP ")" v && gapSearch coroutineColonPart (v.drop 1)) (u.drop 1)

/-- Part of the coroutine_dao_calls regex after the second whitespace run: at
least one word character, then a gap and the parenthesis part. -/
def coroutineBody (r2 : Line) : Bool :=
  (match r2 with | [] => false | c :: _ => isWordChar c)
    && gapSearch coroutineParenPart (r2.drop 1)

/-- Regex of pattern coroutine_dao_calls: suspend, whitespace, fun,
whitespace, a word character, then in order an opening parenthesis, a closing
parenthesis, a colon, optional whitespace, Flow or List with an opening angle
bracket, and finally Vault, with dot-star gaps between the anchors. -/
def coroutineDaoSearch (s : Line) : Bool :=
  existsSuffixB (fun t => litP "suspend" t
    && spacesThen (fun r1 => litP "fun" r1 && spacesThen coroutineBody (r1.drop 3))
      (t.drop 7)) s

-- Data model of src/tools/legacy_room_audit.py.

/-- A filesystem path, as pathlib models it: an absolute flag plus the list of
name components (the leading slash component of an absolute path is carried by
the flag). -/
structure PPath where
  absolute : Bool
  parts : List String
deriving DecidableEq

/-- Membership of ex in path.parents: the parents of a path are its proper
prefixes with the same absoluteness, down to the empty relative or absolute
root path. -/
def inParents (ex p : PPath) : Bool :=
  ex.absolute == p.absolute && ex.parts.isPrefixOf p.parts
    && decide (ex.parts.length < p.parts.length)

/-- Definition of a search pattern (class PatternSpec): the compiled regex is
embedded as its Boolean search function. -/
structure PatternSpec where
  name : String
  description : String
  regexSearch : Line → Bool
  excludes : List PPath
  tags : List String

/-- Method PatternSpec.matches: the pattern does not match on an excluded path
(equal to an exclude, or having an exclude among its parents); otherwise the
regex is searched in the line. -/
def specMatches (spec : PatternSpec) (path : PPath) (line : Line) : Bool :=
  if spec.excludes.any (fun ex => decide (path = ex) || inParents ex path) then false
  else spec.regexSearch line

/-- The exclusion path of the legacy_vault_repository pattern, a relative
path as written in the source. -/
def legacyVaultRepoExclude : PPath :=
  ⟨false, ["android", "app", "src", "main", "java", "com", "julien", "genpwdpro",
           "data", "repository", "VaultRepository.kt"]⟩

/-- The PATTERNS table of the legacy scanner. -/
def PATTERNS : List PatternSpec := [
  { name := "legacy_vault_repository",
    description := "References to the Room-backed VaultRepository",
    regexSearch := legacyVaultRepoSearch,
    excludes := [legacyVaultRepoExclude],
    tags := ["legacy", "room"] },
  { name := "room_database_builder",
    description := "Direct references to androidx.room APIs",
    regexSearch := roomDatabaseBuilderSearch,
    excludes := [],
    tags := ["room", "database"] },
  { name := "room_imports",
    description := "Import statements for Room classes",
    regexSearch := roomImportsSearch,
    excludes := [],
    tags := ["imports", "room"] },
  { name := "room_annotations",
    description := "Usage of Room annotations (Entity, Dao, Query, Database)",
    regexSearch := roomAnnotationsSearch,
    excludes := [],
    tags := ["room", "annotations"] },
  { name := "app_database_singletons",
    description := "References to AppDatabase (Room concrete DB)",
    regexSearch := appDatabaseSearch,
    excludes := [],
    tags := ["room", "database"] },
  { name := "flow_vault_entities",
    description := "Flow emissions of Room entities",
    regexSearch := flowVaultSearch,
    excludes := [],
    tags := ["reactive", "room"] },
  { name := "coroutine_dao_calls",
    description := "Coroutine calls to DAO methods",
    regexSearch := coroutineDaoSearch,
    excludes := [],
    tags := ["coroutines", "room"] }
]

/-- One entry of a recursive directory listing (what root.rglob star yields),
given relative to the scanned root: its path components below the root,
whether it is a regular file, and, for files, the decoded lines of its text
(read_text followed by splitlines is abstracted to the resulting line list). -/
structure FsEntry where
  parts : List String
  isFile : Bool
  lines : List Line
deriving DecidableEq

/-- Suffix of a file name exactly as pathlib computes it: the part of the name
from its last dot on, empty when the name has no dot, starts with its only dot
or ends with its last dot. -/
def suffixOfName (name : List Char) : List Char :=
  if name.contains '.' then
    let after := (name.reverse.takeWhile (fun c => c ≠ '.')).reverse
    if after.length = 0 || after.length = name.length - 1 then []
    else '.' :: after
  else []

/-- Path.suffix on a name given as a string. -/
def nameSuffixStr (name : String) : String := String.mk (suffixOfName name.toList)

/-- The DEFAULT_EXTENSIONS set. -/
def DEFAULT_EXTENSIONS : List String := [".kt", ".kts", ".java", ".xml"]

/-- The EXCLUDED_DIR_NAMES set. -/
def EXCLUDED_DIR_NAMES : List String := [".git", "build", "node_modules", ".gradle", "audit_results"]

/-- Filter of iter_source_files, applied to the full path (root components
followed by the components below the root, since path.parts of an rglob
result includes the parts of the root itself): a regular file whose suffix is
an allowed extension and none of whose path components is an excluded
directory name. -/
def walkPred (root : PPath) (e : FsEntry) : Bool :=
  e.isFile
    && DEFAULT_EXTENSIONS.contains (nameSuffixStr ((root.parts ++ e.parts).getLastD ""))
    && !((root.parts ++ e.parts).any (fun part => EXCLUDED_DIR_NAMES.contains part))

/-- Function iter_source_files: the directory listing filtered by walkPred,
in listing order. -/
def iterSourceFiles (root : PPath) (entries : List FsEntry) : List FsEntry :=
  entries.filter (walkPred root)

/-- One match recorded by scan_file: the 1-based line number and the stripped
line text. -/
structure Finding where
  line : Nat
  content : Line
deriving DecidableEq

/-- Lookup in an insertion-ordered association list (a Python dict). -/
def alookup (q : String) : List (String × α) → Option α
  | [] => none
  | (k, v) :: r => if k = q then some v else alookup q r

/-- The dict idiom findings.setdefault(name, list).append(f): append the
finding to the list under the key, creating the key at the end on first use. -/
def addFinding (m : List (String × List Finding)) (name : String) (f : Finding) :
    List (String × List Finding) :=
  match m with
  | [] => [(name, [f])]
  | (k, v) :: rest =>
    if k = name then (k, v ++ [f]) :: rest else (k, v) :: addFinding rest name f

/-- Inner loop of scan_file over the pattern list for one line. -/
def scanLinePats (path : PPath) (idx : Nat) (line : Line)
    (acc : List (String × List Finding)) : List PatternSpec → List (String × List Finding)
  | [] => acc
  | p :: ps =>
    scanLinePats path idx line
      (if specMatches p path line then addFinding acc p.name ⟨idx, stripLine line⟩ else acc) ps

/-- Outer loop of scan_file over the lines, numbering from 1. -/
def scanFileGo (path : PPath) (pats : List PatternSpec) (idx : Nat)
    (acc : List (String × List Finding)) : List Line → List (String × List Finding)
  | [] => acc
  | l :: rest => scanFileGo path pats (idx + 1) (scanLinePats path idx l acc pats) rest

/-- Function scan_file: per-pattern findings of one file as an
insertion-ordered mapping. -/
def scanFile (path : PPath) (pats : List PatternSpec) (lines : List Line) :
    List (String × List Finding) :=
  scanFileGo path pats 1 [] lines

/-- The report object of build_report: the scanned root rendered as a string,
pattern metadata in table order, the sparse per-file findings mapping in scan
order, and the per-pattern running totals. -/
structure Report where
  root : String
  patternsMeta : List (String × String × List String)
  files : List (String × List (String × List Finding))
  totals : String → Nat

/-- The loop adding one file these findings into the totals dict: for every
pattern key of the file, add the number of its matches. -/
def updTotals (t : String → Nat) : List (String × List Finding) → (String → Nat)
  | [] => t
  | (n, v) :: rest => updTotals (fun q => if q = n then t q + v.length else t q) rest

/-- String rendering of a path relative to the root (the files key of the
report). -/
def relPathStr (parts : List String) : String := String.intercalate "/" parts

/-- String rendering of a path (str of a pathlib path). -/
def pathStrP (p : PPath) : String :=
  if p.absolute then "/" ++ String.intercalate "/" p.parts
  else if p.parts.isEmpty then "." else String.intercalate "/" p.parts

/-- Main loop of build_report over the walked files: scan each file, skip it
when it has no findings, otherwise append its entry to the files mapping and
add its counts to the totals. -/
def buildFT (root : PPath) (pats : List PatternSpec)
    (accF : List (String × List (String × List Finding))) (accT : String → Nat) :
    List FsEntry → List (String × List (String × List Finding)) × (String → Nat)
  | [] => (accF, accT)
  | e :: rest =>
    if (scanFile ⟨root.absolute, root.parts ++ e.parts⟩ pats e.lines).isEmpty then
      buildFT root pats accF accT rest
    else
      buildFT root pats
        (accF ++ [(relPathStr e.parts,
          scanFile ⟨root.absolute, root.parts ++ e.parts⟩ pats e.lines)])
        (updTotals accT (scanFile ⟨root.absolute, root.parts ++ e.parts⟩ pats e.lines)) rest

/-- Pattern selection of build_report: keep the table patterns whose name is
in the selection, or all of them when no selection is given. -/
def selectedPatterns (sel : Option (List String)) : List PatternSpec :=
  PATTERNS.filter (fun p => match sel with | none => true | some names => names.contains p.name)

/-- Function build_report: raises SystemExit (modelled as the error branch)
when the selection leaves no pattern, otherwise scans the tree and assembles
the report. -/
def buildReport (root : PPath) (sel : Option (List String)) (tree : List FsEntry) :
    Except String Report :=
  if (selectedPatterns sel).isEmpty then .error "No patterns selected for the scan"
  else
    .ok { root := pathStrP root,
          patternsMeta := (selectedPatterns sel).map (fun p => (p.name, p.description, p.tags)),
          files := (buildFT root (selectedPatterns sel) [] (fun _ => 0)
            (iterSourceFiles root tree)).1,
          totals := (buildFT root (selectedPatterns sel) [] (fun _ => 0)
            (iterSourceFiles root tree)).2 }

-- Reporter and CLI of the legacy scanner.

/-- JSON string escaping (backslash, quote, and the common control
characters; rarer control-character escapes of the json module are not needed
by any theorem here). -/
def escapeJ (s : String) : String :=
  String.mk (s.toList.flatMap (fun c =>
    if c = '\\' then ['\\', '\\']
    else if c = '"' then ['\\', '"']
    else if c = '\n' then ['\\', 'n']
    else if c = '\t' then ['\\', 't']
    else if c = '\r' then ['\\', 'r']
    else [c]))

/-- A JSON string literal. -/
def quoteJ (s : String) : String := "\"" ++ escapeJ s ++ "\""

/-- JSON rendering of one finding object. -/
def renderFinding (f : Finding) : String :=
  "\x7b\"line\": " ++ toString f.line ++ ", \"content\": "
    ++ quoteJ (String.mk f.content) ++ "\x7d"

/-- JSON rendering of one files entry of the report. -/
def renderFileEntry (e : String × List (String × List Finding)) : String :=
  quoteJ e.1 ++ ": \x7b"
    ++ String.intercalate ", " (e.2.map (fun pf =>
        quoteJ pf.1 ++ ": [" ++ String.intercalate ", " (pf.2.map renderFinding) ++ "]"))
    ++ "\x7d"

/-- JSON rendering of one patterns entry of the report. -/
def renderPatternMeta (m : String × String × List String) : String :=
  quoteJ m.1 ++ ": \x7b\"description\": " ++ quoteJ m.2.1
    ++ ", \"tags\": [" ++ String.intercalate ", " (m.2.2.map quoteJ) ++ "]\x7d"

/-- Serialization of the report as written by json.dump followed by a
newline; keys appear in dict insertion order (root, patterns, files, totals).
The indent-2 whitespace layout of json.dump is abstracted to single-line
rendering, which does not affect any property proved about it. -/
def renderReportJson (r : Report) : String :=
  "\x7b\"root\": " ++ quoteJ r.root
    ++ ", \"patterns\": \x7b"
    ++ String.intercalate ", " (r.patternsMeta.map renderPatternMeta) ++ "\x7d"
    ++ ", \"files\": \x7b"
    ++ String.intercalate ", " (r.files.map renderFileEntry) ++ "\x7d"
    ++ ", \"totals\": \x7b"
    ++ String.intercalate ", " (r.patternsMeta.map (fun m =>
        quoteJ m.1 ++ ": " ++ toString (r.totals m.1))) ++ "\x7d\x7d"
    ++ "\n"

/-- Code-point comparison of character lists, as Python compares strings. -/
def charListLe : List Char → List Char → Bool
  | [], _ => true
  | _ :: _, [] => false
  | a :: as, b :: bs => if a = b then charListLe as bs else decide (a.val < b.val)

/-- Python string comparison used by sorted. -/
def strLeB (a b : String) : Bool := charListLe a.toList b.toList

/-- Stable insertion into a sorted list. -/
def insertBy (le : α → α → Bool) (x : α) : List α → List α
  | [] => [x]
  | y :: ys => if le x y then x :: y :: ys else y :: insertBy le x ys

/-- Stable insertion sort, modelling Python sorted. -/
def sortBy (le : α → α → Bool) : List α → List α
  | [] => []
  | x :: xs => insertBy le x (sortBy le xs)

/-- Python str.rstrip(): drop trailing whitespace. -/
def rstripStr (s : String) : String :=
  String.mk (s.toList.reverse.dropWhile isPySpace).reverse

/-- The bullet character of the detailed-findings section. -/
def bulletStr : String := String.singleton (Char.ofNat 8226)

/-- The party-popper character of the no-matches marker. -/
def partyStr : String := String.singleton (Char.ofNat 127881)

/-- Function format_human_report: header, totals summary sorted by pattern
name, then per-file details sorted by file path and pattern name, or an
explicit no-matches marker. -/
def formatHumanReport (r : Report) : String :=
  let headerLines : List String :=
    ["Legacy Room usage report", "Root: " ++ r.root, "", "Summary by pattern:"]
  let summaryLines : List String :=
    (sortBy (fun a b => strLeB a.1 b.1)
        (r.patternsMeta.map (fun m => (m.1, r.totals m.1)))).map
      (fun item =>
        let desc := ((alookup item.1 r.patternsMeta).map Prod.fst).getD ""
        "- " ++ item.1 ++ " (" ++ desc ++ "): " ++ toString item.2)
  let middleLines : List String := ["", "Detailed findings:"]
  if r.files.isEmpty then
    String.intercalate "\n"
      (headerLines ++ summaryLines ++ middleLines ++ ["  No matches found. " ++ partyStr])
  else
    let detailLines : List String :=
      (sortBy (fun a b => strLeB a.1 b.1) r.files).flatMap (fun e =>
        ("- " ++ e.1)
          :: (sortBy (fun a b => strLeB a.1 b.1) e.2).flatMap (fun pf =>
              ("  " ++ bulletStr ++ " " ++ pf.1 ++ " ("
                  ++ toString pf.2.length ++ " match(es))")
                :: pf.2.map (fun f =>
                    "    L" ++ toString f.line ++ ": " ++ String.mk f.content))
          ++ [""])
    rstripStr (String.intercalate "\n" (headerLines ++ summaryLines ++ middleLines ++ detailLines))
      ++ "\n"

/-- Function persist_report: the two snapshot files written for one run, as
pairs of a timestamp-derived file name and the file content. -/
def persistReport (r : Report) (ts : String) : List (String × String) :=
  [(ts ++ "_legacy_room_audit.txt", formatHumanReport r),
   (ts ++ "_legacy_room_audit.json", renderReportJson r)]

/-- How the process run by main terminates: an explicit return code, or a
propagating SystemExit carrying a message (SystemExit is not a subclass of
Exception, so the except clause of main does not catch it; the interpreter
prints the message and exits with status 1). -/
inductive ExitOutcome where
  | code (n : Nat)
  | sysExitMsg (m : String)
deriving DecidableEq

/-- Numeric process exit status of an outcome. -/
def exitCodeOf : ExitOutcome → Nat
  | .code n => n
  | .sysExitMsg _ => 1

/-- Possible results of the build_report call inside main: a report, the
SystemExit raised for an empty pattern selection, or an unexpected exception
(an abstract case covering runtime errors such as I/O failures that the pure
model cannot itself produce). -/
inductive BuildOutcome where
  | ok (r : Report)
  | sysExit (m : String)
  | unexpected (m : String)

/-- Observable result of one main invocation: the exit outcome and the report
files written. -/
structure RunResult where
  exit : ExitOutcome
  written : List (String × String)
deriving DecidableEq

/-- Control flow of function main: return 2 before doing anything when the
root does not exist; catch an unexpected exception from report construction
and return 1; let the SystemExit of an empty selection propagate; otherwise
persist the report and return 0. -/
def mainFlow (rootExists : Bool) (outcome : BuildOutcome) (ts : String) : RunResult :=
  if !rootExists then ⟨.code 2, []⟩
  else
    match outcome with
    | .unexpected _ => ⟨.code 1, []⟩
    | .sysExit m => ⟨.sysExitMsg m, []⟩
    | .ok r => ⟨.code 0, persistReport r ts⟩

/-- Outcome of the build_report call on an existing tree. -/
def buildOutcomeOf (root : PPath) (sel : Option (List String)) (tree : List FsEntry) :
    BuildOutcome :=
  match buildReport root sel tree with
  | .ok r => .ok r
  | .error m => .sysExit m

/-- Function main, over an abstract filesystem: none models a nonexistent
root, some tree the recursive listing of an existing root. -/
def mainRun (fs : Option (List FsEntry)) (root : PPath) (sel : Option (List String))
    (ts : String) : RunResult :=
  match fs with
  | none => ⟨.code 2, []⟩
  | some tree => mainFlow true (buildOutcomeOf root sel tree) ts

-- Data model of src/security_agent.py.

/-- One SecurityIssue of the audit agent. -/
structure Issue where
  severity : String
  category : String
  file : String
  lineNum : Nat
  message : String
deriving DecidableEq

/-- An apostrophe, used inside some issue messages. -/
def apos : String := String.singleton (Char.ofNat 39)

/-- The manifest attribute substring enabling backups. -/
def backupTok : Line := "android:allowBackup=\"true\"".toList

/-- The manifest attribute substring enabling debugging. -/
def debugTok : Line := "android:debuggable=\"true\"".toList

/-- The manifest attribute substring marking an exported component. -/
def exportedTok : Line := "android:exported=\"true\"".toList

/-- The XML comment opening token. -/
def commentOpenTok : Line := "<!--".toList

/-- The XML comment closing token. -/
def commentCloseTok : Line := "-->".toList

/-- The safe_exported allow-list of component names. -/
def safeExported : List String :=
  ["MainActivity", "OAuthCallbackActivity", "OtpImportActivity", "PasswordWidget",
   "GenPwdAutofillService"]

/-- Message of the backup finding. -/
def backupMsg : String :=
  "Backup is enabled (android:allowBackup=" ++ apos ++ "true" ++ apos
    ++ "). Vault data could be extracted via ADB."

/-- Message of the debuggable finding. -/
def debugMsg : String := "App is debuggable. Attackers can hook into the process easily."

/-- Message of the exported-component finding. -/
def exportedMsg : String :=
  "Component is exported. Ensure it is protected by permissions or Intent filters are safe."

/-- The exported-component finding for the line at 0-based index i. -/
def exportedIssue (i : Nat) : Issue :=
  ⟨"MEDIUM", "Android Security", "AndroidManifest.xml", i + 1, exportedMsg⟩

/-- Context inspected for the allow-list: the current line followed by the
previous line and the one before it, when they exist. -/
def contextAt (all : List Line) (i : Nat) (line : Line) : Line :=
  line ++ (if 0 < i then all.getD (i - 1) [] else [])
    ++ (if 1 < i then all.getD (i - 2) [] else [])

/-- Whether the context contains some allow-listed component name. -/
def isSafeContext (ctx : Line) : Bool :=
  safeExported.any (fun nm => containsSub nm.toList ctx)

/-- State update of the two-state comment heuristic for one line: a closing
token resets the state, otherwise an opening token (or the prior state) keeps
it set. -/
def manifestStep (s : Bool) (line : Line) : Bool :=
  if containsSub commentCloseTok line then false
  else s || containsSub commentOpenTok line

/-- Whether a line is evaluated by the exported-component check given the
comment state on entry: lines holding a closing token are skipped, as are
lines whose entry state or opening token marks them as inside a comment. -/
def evaluatedB (s : Bool) (line : Line) : Bool :=
  !containsSub commentCloseTok line && !(s || containsSub commentOpenTok line)

/-- Loop of the exported-component check of audit_android_manifest, carrying
the full line list for context lookup, the current 0-based index and the
in-comment state. -/
def manifestGo (all : List Line) (i : Nat) (s : Bool) : List Line → List Issue
  | [] => []
  | line :: rest =>
    if containsSub commentCloseTok line then manifestGo all (i + 1) false rest
    else if s || containsSub commentOpenTok line then
      manifestGo all (i + 1) (s || containsSub commentOpenTok line) rest
    else
      (if containsSub exportedTok line then
        (if isSafeContext (contextAt all i line) then [] else [exportedIssue i])
       else [])
        ++ manifestGo all (i + 1) (s || containsSub commentOpenTok line) rest

/-- Method audit_android_manifest on the manifest lines: the whole-content
backup and debuggable checks followed by the per-line exported-component
check (a substring without newline occurs in the joined content exactly when
it occurs in some line). -/
def auditAndroidManifest (lines : List Line) : List Issue :=
  (if lines.any (fun l => containsSub backupTok l) then
    [⟨"HIGH", "Android Security", "AndroidManifest.xml", 0, backupMsg⟩]
   else [])
    ++ (if lines.any (fun l => containsSub debugTok l) then
        [⟨"CRITICAL", "Android Security", "AndroidManifest.xml", 0, debugMsg⟩]
       else [])
    ++ manifestGo lines 0 false lines

/-- Comment state on entry to the line at index n: the step function folded
over the preceding lines. -/
def manifestStateAt (lines : List Line) (n : Nat) : Bool :=
  (lines.take n).foldl manifestStep false

/-- Whether the line at index n is evaluated by the exported-component check
(that is, not skipped by the comment heuristic). -/
def manifestLineEvaluated (lines : List Line) (n : Nat) : Bool :=
  evaluatedB (manifestStateAt lines n) (lines.getD n [])

/-- Whether the loop starting at index i in state s flags the line k steps
further on. -/
def flagGo (all : List Line) (i : Nat) (s : Bool) (k : Nat) : List Line → Bool
  | [] => false
  | line :: rest =>
    match k with
    | 0 => evaluatedB s line && containsSub exportedTok line
        && !isSafeContext (contextAt all i line)
    | k' + 1 => flagGo all (i + 1) (manifestStep s line) k' rest

/-- Whether one string ends with another, as a name glob of the form
star-dot-extension tests it. -/
def strEndsWith (s suf : String) : Bool := suf.toList.isSuffixOf s.toList

/-- A source file visited by the code audits: path components (relative to
the scanned root, as rglob yields them for a relative root) and the decoded
lines of its content. -/
structure SrcFile where
  parts : List String
  lines : List Line
deriving DecidableEq

/-- Enumerate lines from a given 0-based index, collecting per-line issues. -/
def perLineIssues (g : Nat → Line → List Issue) (i : Nat) : List Line → List Issue
  | [] => []
  | l :: rest => g i l ++ perLineIssues g (i + 1) rest

/-- Message of the sensitive-logging finding. -/
def logMsg : String := "Potential logging of sensitive data (password/token)."

/-- Message of the weak-RNG Kotlin finding. -/
def rngMsg : String := "Usage of insecure RNG (java.util.Random). Use SecureRandom instead."

/-- The sensitive-logging condition of audit_android_code for one line: one of
the four logging call forms, not routed through the two safe wrappers, and a
sensitive word in the lowercased line. -/
def ktLogCheck (line : Line) : Bool :=
  (containsSub "Log.d(".toList line || containsSub "Log.e(".toList line
      || containsSub "Log.i(".toList line || containsSub "Log.w(".toList line)
    && !containsSub "SafeLog.".toList line
    && !containsSub "SecureLogger.".toList line
    && (containsSub "password".toList (lowerLine line)
        || containsSub "token".toList (lowerLine line)
        || containsSub "key".toList (lowerLine line))

/-- Per-line checks of audit_android_code. -/
def ktLineIssues (fname : String) (i : Nat) (line : Line) : List Issue :=
  (if ktLogCheck line then [⟨"MEDIUM", "Data Leakage", fname, i + 1, logMsg⟩] else [])
    ++ (if containsSub "java.util.Random".toList line then
        [⟨"LOW", "Cryptography", fname, i + 1, rngMsg⟩]
       else [])

/-- Contribution of one file to audit_android_code: every file whose name
matches the star-dot-kt glob is scanned, with no directory exclusion. -/
def ktFileIssues (f : SrcFile) : List Issue :=
  if strEndsWith (f.parts.getLastD "") ".kt" then
    perLineIssues (ktLineIssues (f.parts.getLastD "")) 0 f.lines
  else []

/-- Method audit_android_code over a recursive listing. -/
def auditAndroidCode (files : List SrcFile) : List Issue :=
  files.flatMap ktFileIssues

/-- Message of the eval finding. -/
def evalMsg : String := "Usage of eval() detected. High risk of XSS -> RCE."

/-- Message of the weak-RNG JavaScript finding. -/
def mathRandomMsg : String :=
  "Math.random() used in security context. Use window.crypto.getRandomValues()."

/-- Per-line checks of audit_js_source; the Math.random check consults the
path string of the file. -/
def jsLineIssues (fname : String) (fpath : String) (i : Nat) (line : Line) : List Issue :=
  (if containsSub "eval(".toList line then
    [⟨"HIGH", "Code Execution", fname, i + 1, evalMsg⟩]
   else [])
    ++ (if containsSub "Math.random()".toList line
          && !containsSub "crypto".toList fpath.toList
          && (containsSub "generator".toList fpath.toList
              || containsSub "vault".toList fpath.toList) then
        [⟨"MEDIUM", "Cryptography", fname, i + 1, mathRandomMsg⟩]
       else [])

/-- Contribution of one file to audit_js_source: files whose name matches the
star-dot-js glob, except those whose path string contains node_modules. -/
def jsFileIssues (f : SrcFile) : List Issue :=
  if !strEndsWith (f.parts.getLastD "") ".js" then []
  else if containsSub "node_modules".toList (relPathStr f.parts).toList then []
  else perLineIssues (jsLineIssues (f.parts.getLastD "") (relPathStr f.parts)) 0 f.lines

/-- Method audit_js_source over a recursive listing. -/
def auditJsSource (files : List SrcFile) : List Issue :=
  files.flatMap jsFileIssues

/-- A file visited by the secrets scan: path components, regular-file flag and
whole decoded text. -/
structure RawFile where
  parts : List String
  isFile : Bool
  text : List Char
deriving DecidableEq

/-- The character class of the Google API key regex: digits, letters, hyphen
and underscore. -/
def isKeyClassChar (c : Char) : Bool := c.isAlphanum || c = '-' || c = '_'

/-- Regex of the Google API Key secret: the literal AIza followed by exactly
35 key-class characters. -/
def googleKeySearch (s : List Char) : Bool :=
  existsSuffixB (fun t => litP "AIza" t
    && (let r := (t.drop 4).take 35
        r.length == 35 && r.all isKeyClassChar)) s

/-- Case-insensitive literal prefix test (ASCII), for the case-insensitive
generic-token regex. -/
def ciLitP (lit : String) (t : Line) : Bool := lit.toList.isPrefixOf (lowerLine t)

/-- A quote character of the generic-token regex value part. -/
def isQuoteChar (c : Char) : Bool := c = '\'' || c = '"'

/-- The character class of the generic-token regex value. -/
def isTokValChar (c : Char) : Bool := c.isAlphanum || c = '_' || c = '-'

/-- One alternative of the generic-token regex at a fixed position: the
keyword (case-insensitively), optional whitespace, a colon or equals sign,
optional whitespace, a quote, at least 20 value-class characters and a
closing quote.  The whitespace runs and the value run are maximal because the
characters required next are outside the respective classes. -/
def genericTokenAt (kw : String) (t : Line) : Bool :=
  ciLitP kw t
    && (let r1 := (t.drop kw.length).dropWhile isPySpace
        match r1 with
        | [] => false
        | c :: r2 =>
          (c = ':' || c = '=')
            && (let r3 := r2.dropWhile isPySpace
                match r3 with
                | [] => false
                | q :: r4 =>
                  isQuoteChar q
                    && (let run := r4.takeWhile isTokValChar
                        decide (20 ≤ run.length)
                          && (match r4.drop run.length with
                              | [] => false
                              | q2 :: _ => isQuoteChar q2))))

/-- Regex of the Generic Token secret: one of three keywords followed by an
assigned quoted value of at least 20 class characters. -/
def genericTokenSearch (s : List Char) : Bool :=
  existsSuffixB (fun t => genericTokenAt "api_key" t || genericTokenAt "access_token" t
    || genericTokenAt "secret_key" t) s

/-- The extension set of the secrets scan. -/
def secretExtensions : List String := [".js", ".kt", ".xml", ".json", ".gradle", ".properties"]

/-- Message of the Google API key finding. -/
def googleMsg : String := "Possible Google API Key found."

/-- Message of the generic token finding. -/
def genericMsg : String := "Possible Generic Token found."

/-- Contribution of one file to scan_for_secrets: regular files of an allowed
extension, outside node_modules and dot-git paths, searched once per secret
pattern over the whole content, reported at line 0. -/
def secretFileIssues (f : RawFile) : List Issue :=
  if f.isFile && secretExtensions.contains (nameSuffixStr (f.parts.getLastD "")) then
    if containsSub "node_modules".toList (relPathStr f.parts).toList
        || containsSub ".git".toList (relPathStr f.parts).toList then []
    else
      (if googleKeySearch f.text then
        [⟨"HIGH", "Hardcoded Secret", f.parts.getLastD "", 0, googleMsg⟩]
       else [])
        ++ (if genericTokenSearch f.text then
            [⟨"HIGH", "Hardcoded Secret", f.parts.getLastD "", 0, genericMsg⟩]
           else [])
  else []

/-- Method scan_for_secrets over a recursive listing. -/
def scanForSecrets (files : List RawFile) : List Issue :=
  files.flatMap secretFileIssues

-- Helper lemmas about the search combinators.

/-- A successful suffix search yields a witnessing suffix. -/
theorem existsSuffixB_true {f : Line → Bool} {s : Line} (h : existsSuffixB f s = true) :
    ∃ t, t <:+ s ∧ f t = true := by
  induction s with
  | nil => exact ⟨[], List.suffix_refl _, h⟩
  | cons c r ih =>
    rw [existsSuffixB, Bool.or_eq_true] at h
    cases h with
    | inl h1 => exact ⟨c :: r, List.suffix_refl _, h1⟩
    | inr h2 =>
      obtain ⟨t, hts, hf⟩ := ih h2
      exact ⟨t, hts.trans (List.suffix_cons c r), hf⟩

/-- A successful gap search yields a witnessing suffix. -/
theorem gapSearch_true {f : Line → Bool} {s : Line} (h : gapSearch f s = true) :
    ∃ t, t <:+ s ∧ f t = true := by
  induction s with
  | nil => exact ⟨[], List.suffix_refl _, h⟩
  | cons c r ih =>
    rw [gapSearch, Bool.or_eq_true] at h
    cases h with
    | inl h1 => exact ⟨c :: r, List.suffix_refl _, h1⟩
    | inr h2 =>
      rw [Bool.and_eq_true] at h2
      obtain ⟨t, hts, hf⟩ := ih h2.2
      exact ⟨t, hts.trans (List.suffix_cons c r), hf⟩

/-- Characters of a matched literal occur in the matched text. -/
theorem litP_mem {lit : String} {t : Line} (h : litP lit t = true) :
    ∀ {c : Char}, c ∈ lit.toList → c ∈ t :=
  fun hc => (List.isPrefixOf_iff_prefix.1 h).subset hc

/-- C10 (implicit): on a line containing no backslash character, the
room_database_builder regex never matches (both of its alternatives require a
literal backslash), and the room_imports regex reduces to its VaultDao and
VaultEntity alternatives, since its androidx alternative likewise requires a
literal backslash.  In particular a plain androidx.room import line matches
neither pattern. -/
theorem roomPatternsNeedBackslash (line : Line) (h : '\\' ∉ line) :
    roomDatabaseBuilderSearch line = false
      ∧ roomImportsSearch line = (roomImportsAltDao line || roomImportsAltEntity line) := by
  have handroidx : ∀ {t : Line}, t <:+ line → litP "androidx\\" t = true → False := by
    intro t hts hp
    exact h (hts.subset (litP_mem hp (by decide)))
  have hroom : ∀ {t : Line}, t <:+ line → litP "Room\\" t = true → False := by
    intro t hts hp
    exact h (hts.subset (litP_mem hp (by decide)))
  have hdb : roomDatabaseBuilderSearch line = false := by
    cases hb : roomDatabaseBuilderSearch line with
    | false => rfl
    | true =>
      exfalso
      rw [roomDatabaseBuilderSearch, Bool.or_eq_true] at hb
      cases hb with
      | inl h1 =>
        obtain ⟨t, hts, hf⟩ := existsSuffixB_true h1
        rw [Bool.and_eq_true] at hf
        exact handroidx hts hf.1
      | inr h2 =>
        obtain ⟨t, hts, hf⟩ := existsSuffixB_true h2
        rw [Bool.and_eq_true] at hf
        exact hroom hts hf.1
  have halt : roomImportsAltRoom line = false := by
    cases hb : roomImportsAltRoom line with
    | false => rfl
    | true =>
      exfalso
      rw [roomImportsAltRoom] at hb
      obtain ⟨t, hts, hf⟩ := existsSuffixB_true hb
      rw [Bool.and_eq_true] at hf
      obtain ⟨u, hu, hg⟩ := gapSearch_true hf.2
      rw [Bool.and_eq_true] at hg
      exact handroidx (hu.trans ((List.drop_suffix 6 t).trans hts)) hg.1
  refine ⟨hdb, ?_⟩
  rw [roomImportsSearch, halt, Bool.false_or]

/-- Witness for C10 at the concrete line importing androidx.room.RoomDatabase:
the line has no backslash, so neither room pattern flags it. -/
theorem roomPatternsNeedBackslash_witness :
    ('\\' ∉ "import androidx.room.RoomDatabase".toList)
      ∧ (roomDatabaseBuilderSearch "import androidx.room.RoomDatabase".toList = false
        ∧ roomImportsSearch "import androidx.room.RoomDatabase".toList
            = (roomImportsAltDao "import androidx.room.RoomDatabase".toList
              || roomImportsAltEntity "import androidx.room.RoomDatabase".toList)) :=
  ⟨by decide, roomPatternsNeedBackslash _ (by decide)⟩

/-- C9: the exit codes of main.  A nonexistent root returns 2 before scanning
or writing anything; an unexpected exception during report construction is
caught and returns 1 with nothing written; a successful run returns 0.  (The
SystemExit of an empty selection is not an Exception and therefore follows
neither path; see the C1 theorems.) -/
theorem mainExitCodes (ts : String) :
    (∀ o, mainFlow false o ts = ⟨.code 2, []⟩)
      ∧ (∀ m, mainFlow true (.unexpected m) ts = ⟨.code 1, []⟩)
      ∧ (∀ r, (mainFlow true (.ok r) ts).exit = .code 0)
      ∧ (∀ root sel, mainRun none root sel ts = ⟨.code 2, []⟩) :=
  ⟨fun _ => rfl, fun _ => rfl, fun _ => rfl, fun _ _ => rfl⟩

/-- Counterexample to C1 as stated: a selection that CONTAINS an unknown
pattern name but also a valid one does not abort; the run succeeds with exit
code 0 and both snapshot files are written, the unknown name being silently
ignored. -/
theorem unknownNameBesideValidStillRuns :
    (mainRun (some []) ⟨true, ["repo"]⟩
        (some ["legacy_vault_repository", "no_such_pattern"]) "2024-01-01_00-00-00").exit
      = .code 0
    ∧ ((mainRun (some []) ⟨true, ["repo"]⟩
        (some ["legacy_vault_repository", "no_such_pattern"]) "2024-01-01_00-00-00").written).length
      = 2 :=
  ⟨rfl, rfl⟩

/-- C1 (amended): the run aborts, with a propagating SystemExit (process
status 1) and no report file written, exactly when the selection matches no
pattern name of the table at all; unknown names accompanied by at least one
valid name are ignored. -/
theorem noMatchingPatternAborts (tree : List FsEntry) (root : PPath)
    (names : List String) (ts : String)
    (h : selectedPatterns (some names) = []) :
    mainRun (some tree) root (some names) ts
      = ⟨.sysExitMsg "No patterns selected for the scan", []⟩ := by
  simp [mainRun, mainFlow, buildOutcomeOf, buildReport, h]

/-- Witness for the amended C1: a selection holding only an unknown name
matches no pattern and aborts without writing. -/
theorem noMatchingPatternAborts_witness :
    selectedPatterns (some ["no_such_pattern"]) = []
      ∧ mainRun (some []) ⟨true, []⟩ (some ["no_such_pattern"]) "ts"
          = ⟨.sysExitMsg "No patterns selected for the scan", []⟩ :=
  ⟨rfl, noMatchingPatternAborts [] ⟨true, []⟩ ["no_such_pattern"] "ts" rfl⟩

/-- The line of the legacy implementation file used to exhibit C2. -/
def legacyFileLine : Line := "val repo = VaultRepository()".toList

/-- The legacy implementation file itself, listed relative to the root at the
exact path named by the exclusion entry of the pattern table. -/
def c2Entry : FsEntry := ⟨legacyVaultRepoExclude.parts, true, [legacyFileLine]⟩

/-- C2 evaluated at a failing input: scanning a resolved (absolute) root, as
main always does, the legacy_vault_repository pattern DOES flag the excluded
legacy implementation file, because the relative exclusion path can never
equal the absolute scanned path nor be one of its parents.  The built report
counts one finding for the pattern and lists the legacy file itself. -/
theorem legacyFileIsFlaggedUnderAbsoluteRoot :
    (buildReport ⟨true, ["repo"]⟩ none [c2Entry]).toOption.map
        (fun r => (r.totals "legacy_vault_repository",
          r.files.map (fun e => (e.1, ((alookup "legacy_vault_repository" e.2).getD []).length))))
      = some (1, [(relPathStr legacyVaultRepoExclude.parts, 1)]) := by
  rfl

/-- Counterexample to C6 as stated: the Kotlin per-line checks have no
dependency-directory exclusion, so a Kotlin file under node_modules produces
a weak-RNG finding. -/
theorem ktChecksScanNodeModules :
    containsSub "node_modules".toList
        (relPathStr ["node_modules", "pkg", "Evil.kt"]).toList = true
      ∧ auditAndroidCode [⟨["node_modules", "pkg", "Evil.kt"],
            ["val r = java.util.Random()".toList]⟩]
          = [⟨"LOW", "Cryptography", "Evil.kt", 1, rngMsg⟩] := by
  constructor
  · decide
  · rfl

/-- C6 (amended): only the JavaScript checks exclude dependency directories;
a file whose path string contains node_modules contributes no JavaScript
finding (the Kotlin checks scan every Kotlin file, as the counterexample
shows). -/
theorem jsAuditSkipsNodeModules (f : SrcFile)
    (h : containsSub "node_modules".toList (relPathStr f.parts).toList = true) :
    jsFileIssues f = [] := by
  rw [jsFileIssues, h]
  cases strEndsWith (f.parts.getLastD "") ".js" <;> simp

/-- Witness for the amended C6: a concrete JavaScript file under node_modules
containing an eval call yields no finding. -/
theorem jsAuditSkipsNodeModules_witness :
    containsSub "node_modules".toList
        (relPathStr (["node_modules", "a.js"] : List String)).toList = true
      ∧ jsFileIssues ⟨["node_modules", "a.js"], ["eval(x)".toList]⟩ = [] :=
  ⟨by decide, jsAuditSkipsNodeModules ⟨["node_modules", "a.js"], ["eval(x)".toList]⟩ (by decide)⟩

/-- C3: a visited file (regular, allowed extension, not under node_modules or
a dot-git path) whose content matches the Google API key regex receives
exactly one HIGH Hardcoded Secret finding for that pattern, at line 0,
however many occurrences the content holds, because re.search is consulted
once per pattern per file. -/
theorem googleSecretSingleFinding (f : RawFile)
    (hfile : f.isFile = true)
    (hext : secretExtensions.contains (nameSuffixStr (f.parts.getLastD "")) = true)
    (hskip : (containsSub "node_modules".toList (relPathStr f.parts).toList
        || containsSub ".git".toList (relPathStr f.parts).toList) = false)
    (hg : googleKeySearch f.text = true) :
    (secretFileIssues f).filter (fun iss => iss.message == googleMsg)
      = [⟨"HIGH", "Hardcoded Secret", f.parts.getLastD "", 0, googleMsg⟩] := by
  rw [secretFileIssues, hfile, hext, hskip, hg]
  cases hgen : genericTokenSearch f.text <;>
    simp [googleMsg, genericMsg]

/-- The file used to witness C3: a properties file whose content holds two
occurrences of a well-formed Google API key. -/
def c3File : RawFile :=
  ⟨["local.properties"], true,
    "AIza".toList ++ List.replicate 35 'A' ++ '\n' :: "AIza".toList ++ List.replicate 35 'A'⟩

/-- Witness for C3 at a concrete file containing the key twice: still exactly
one finding for the pattern. -/
theorem googleSecretSingleFinding_witness :
    (c3File.isFile = true ∧ googleKeySearch c3File.text = true)
      ∧ (secretFileIssues c3File).filter (fun iss => iss.message == googleMsg)
          = [⟨"HIGH", "Hardcoded Secret", c3File.parts.getLastD "", 0, googleMsg⟩] :=
  ⟨⟨rfl, by decide⟩,
    googleSecretSingleFinding c3File rfl (by decide) (by decide) (by decide)⟩

/-- Counting under an equality predicate is unchanged by a filter that keeps
the counted element. -/
theorem countP_filter_stable {α : Type} [DecidableEq α] (q : α → Bool) (e : α)
    (he : q e = true) :
    ∀ l : List α, (l.filter q).countP (fun x => decide (x = e))
      = l.countP (fun x => decide (x = e)) := by
  intro l
  induction l with
  | nil => rfl
  | cons a as ih =>
    by_cases hae : a = e
    · subst hae
      simp [List.filter_cons, he, List.countP_cons, ih]
    · cases hq : q a <;>
        simp [List.filter_cons, hq, List.countP_cons, hae, ih]

/-- C5: the walker yields every regular file with an allowed extension and no
excluded path segment exactly as often as the listing holds it (hence exactly
once for a real filesystem listing), and never yields a file one of whose
path segments is an excluded directory name. -/
theorem walkerYieldsExactly (root : PPath) (entries : List FsEntry) (e : FsEntry) :
    ((e.isFile = true
        ∧ DEFAULT_EXTENSIONS.contains (nameSuffixStr ((root.parts ++ e.parts).getLastD "")) = true
        ∧ ((root.parts ++ e.parts).any (fun part => EXCLUDED_DIR_NAMES.contains part)) = false)
      → (iterSourceFiles root entries).countP (fun x => decide (x = e))
          = entries.countP (fun x => decide (x = e)))
    ∧ (((root.parts ++ e.parts).any (fun part => EXCLUDED_DIR_NAMES.contains part)) = true
      → e ∉ iterSourceFiles root entries) := by
  constructor
  · rintro ⟨h1, h2, h3⟩
    have he : walkPred root e = true := by rw [walkPred, h1, h2, h3]; rfl
    exact countP_filter_stable _ e he entries
  · intro hexcl hmem
    have hw := (List.mem_filter.1 hmem).2
    rw [walkPred, hexcl] at hw
    simp at hw

/-- Witness for C5: a Kotlin file directly under an absolute root is yielded
exactly once from a one-entry listing. -/
theorem walkerYieldsExactly_witness :
    ((⟨["A.kt"], true, []⟩ : FsEntry).isFile = true
        ∧ DEFAULT_EXTENSIONS.contains
            (nameSuffixStr ((["r"] ++ ["A.kt"]).getLastD "")) = true)
      ∧ (iterSourceFiles ⟨true, ["r"]⟩ [⟨["A.kt"], true, []⟩]).countP
            (fun x => decide (x = (⟨["A.kt"], true, []⟩ : FsEntry)))
          = [(⟨["A.kt"], true, []⟩ : FsEntry)].countP
              (fun x => decide (x = (⟨["A.kt"], true, []⟩ : FsEntry))) :=
  ⟨⟨rfl, by decide⟩,
    (walkerYieldsExactly ⟨true, ["r"]⟩ [⟨["A.kt"], true, []⟩] ⟨["A.kt"], true, []⟩).1
      ⟨rfl, by decide, by decide⟩⟩

/-- C7: determinism of a run over an unchanged tree.  The report is a pure
function of the root, the selection and the listing, the timestamp enters
only the names of the persisted snapshot files, and the persisted bytes are
functions of the report alone: two runs at different timestamps write
byte-identical contents under names differing only in the timestamp. -/
theorem scannerDeterministic (root : PPath) (sel : Option (List String))
    (tree : List FsEntry) (t1 t2 : String) (rep : Report)
    (h : buildReport root sel tree = .ok rep) :
    ((persistReport rep t1).map Prod.snd = (persistReport rep t2).map Prod.snd)
      ∧ (persistReport rep t1).map Prod.fst
          = [t1 ++ "_legacy_room_audit.txt", t1 ++ "_legacy_room_audit.json"]
      ∧ (persistReport rep t2).map Prod.fst
          = [t2 ++ "_legacy_room_audit.txt", t2 ++ "_legacy_room_audit.json"]
      ∧ (mainRun (some tree) root sel t1).written.map Prod.snd
          = (mainRun (some tree) root sel t2).written.map Prod.snd := by
  refine ⟨rfl, rfl, rfl, ?_⟩
  simp [mainRun, mainFlow, buildOutcomeOf, h, persistReport]

/-- The report of an empty tree under an absolute empty root with the full
pattern table, used to witness C7. -/
def c7Rep : Report :=
  { root := pathStrP ⟨true, []⟩,
    patternsMeta := (selectedPatterns none).map (fun p => (p.name, p.description, p.tags)),
    files := [],
    totals := fun _ => 0 }

/-- Witness for C7 at a concrete empty tree and two distinct timestamps. -/
theorem scannerDeterministic_witness :
    buildReport ⟨true, []⟩ none [] = .ok c7Rep
      ∧ (((persistReport c7Rep "A").map Prod.snd = (persistReport c7Rep "B").map Prod.snd)
        ∧ (persistReport c7Rep "A").map Prod.fst
            = ["A" ++ "_legacy_room_audit.txt", "A" ++ "_legacy_room_audit.json"]
        ∧ (persistReport c7Rep "B").map Prod.fst
            = ["B" ++ "_legacy_room_audit.txt", "B" ++ "_legacy_room_audit.json"]
        ∧ (mainRun (some []) ⟨true, []⟩ none "A").written.map Prod.snd
            = (mainRun (some []) ⟨true, []⟩ none "B").written.map Prod.snd) :=
  ⟨rfl, scannerDeterministic ⟨true, []⟩ none [] "A" "B" c7Rep rfl⟩

-- Association-list lemmas for the totals invariant of the report builder.

/-- Keys of an association list. -/
def keysOf (m : List (String × α)) : List String := m.map Prod.fst

/-- Keys of a nonempty association list. -/
theorem keysOf_cons (kv : String × α) (m : List (String × α)) :
    keysOf (kv :: m) = kv.1 :: keysOf m := rfl

/-- Lookup misses keys that are absent. -/
theorem alookup_not_mem {α : Type} {q : String} :
    ∀ {m : List (String × α)}, q ∉ keysOf m → alookup q m = none := by
  intro m
  induction m with
  | nil => intro _; rfl
  | cons kv rest ih =>
    obtain ⟨k, v⟩ := kv
    intro h
    simp only [keysOf, List.map_cons, List.mem_cons] at h
    push_neg at h
    rw [alookup, if_neg (fun hk => h.1 hk.symm)]
    exact ih (by simpa [keysOf] using h.2)

/-- Effect of addFinding on lookups: the addressed key gains the appended
finding, the others are untouched. -/
theorem alookup_addFinding (n : String) (f : Finding) (q : String) :
    ∀ (m : List (String × List Finding)),
      alookup q (addFinding m n f)
        = if q = n then some (((alookup n m).getD []) ++ [f]) else alookup q m := by
  intro m
  induction m with
  | nil =>
    by_cases hq : q = n
    · subst hq; simp [addFinding, alookup]
    · have h2 : ¬ n = q := fun hh => hq hh.symm
      simp [addFinding, alookup, hq, h2]
  | cons kv rest ih =>
    obtain ⟨k, v⟩ := kv
    by_cases hkn : k = n
    · subst hkn
      rw [addFinding, if_pos rfl]
      by_cases hq : q = k
      · subst hq; simp [alookup]
      · have h2 : ¬ k = q := fun hh => hq hh.symm
        simp [alookup, h2, hq]
    · rw [addFinding, if_neg hkn]
      by_cases hq : q = n
      · subst hq
        have h2 : ¬ k = q := fun hh => hkn hh
        simp [alookup, h2, ih]
      · by_cases hkq : k = q
        · subst hkq; simp [alookup, ih, hq]
        · simp [alookup, hkq, ih, hq]

/-- Effect of addFinding on the key list: nothing new for a present key, the
key appended at the end otherwise. -/
theorem keysOf_addFinding (n : String) (f : Finding) :
    ∀ (m : List (String × List Finding)),
      keysOf (addFinding m n f)
        = if n ∈ keysOf m then keysOf m else keysOf m ++ [n] := by
  intro m
  induction m with
  | nil => simp [addFinding, keysOf]
  | cons kv rest ih =>
    obtain ⟨k, v⟩ := kv
    by_cases hkn : k = n
    · subst hkn
      rw [addFinding, if_pos rfl]
      simp [keysOf]
    · rw [addFinding, if_neg hkn]
      have h2 : ¬ n = k := fun hh => hkn hh.symm
      by_cases hn : n ∈ keysOf rest
      · simp [keysOf_cons, List.mem_cons, ih, hn, h2]
      · simp [keysOf_cons, List.mem_cons, ih, hn, h2]

/-- addFinding keeps the keys duplicate-free. -/
theorem nodup_addFinding {m : List (String × List Finding)} {n : String} {f : Finding}
    (h : (keysOf m).Nodup) : (keysOf (addFinding m n f)).Nodup := by
  rw [keysOf_addFinding]
  by_cases hn : n ∈ keysOf m
  · rw [if_pos hn]; exact h
  · rw [if_neg hn]
    simp [List.nodup_append, h, hn]

/-- addFinding keeps every value list nonempty. -/
theorem vals_addFinding {n : String} {f : Finding} :
    ∀ {m : List (String × List Finding)}, (∀ p ∈ m, p.2 ≠ []) →
      ∀ p ∈ addFinding m n f, p.2 ≠ [] := by
  intro m
  induction m with
  | nil =>
    intro _ p hp
    rw [addFinding, List.mem_singleton] at hp
    subst hp
    simp
  | cons kv rest ih =>
    obtain ⟨k, v⟩ := kv
    intro h p hp
    rw [addFinding] at hp
    by_cases hkn : k = n
    · rw [if_pos hkn] at hp
      rcases List.mem_cons.1 hp with hp1 | hp2
      · subst hp1; simp
      · exact h p (List.mem_cons_of_mem _ hp2)
    · rw [if_neg hkn] at hp
      rcases List.mem_cons.1 hp with hp1 | hp2
      · subst hp1; exact h (k, v) (List.mem_cons_self _ _)
      · exact ih (fun p' hp' => h p' (List.mem_cons_of_mem _ hp')) p hp2

/-- The per-line pattern loop keeps the keys duplicate-free. -/
theorem scanLinePats_nodup (path : PPath) (idx : Nat) (line : Line) :
    ∀ (pats : List PatternSpec) (acc : List (String × List Finding)),
      (keysOf acc).Nodup → (keysOf (scanLinePats path idx line acc pats)).Nodup := by
  intro pats
  induction pats with
  | nil => intro acc h; exact h
  | cons p ps ih =>
    intro acc h
    rw [scanLinePats]
    apply ih
    by_cases hm : specMatches p path line = true
    · rw [if_pos hm]; exact nodup_addFinding h
    · rw [if_neg hm]; exact h

/-- The per-line pattern loop keeps every value list nonempty. -/
theorem scanLinePats_vals (path : PPath) (idx : Nat) (line : Line) :
    ∀ (pats : List PatternSpec) (acc : List (String × List Finding)),
      (∀ p ∈ acc, p.2 ≠ []) →
      ∀ p ∈ scanLinePats path idx line acc pats, p.2 ≠ [] := by
  intro pats
  induction pats with
  | nil => intro acc h; exact h
  | cons p ps ih =>
    intro acc h
    rw [scanLinePats]
    apply ih
    by_cases hm : specMatches p path line = true
    · rw [if_pos hm]; exact vals_addFinding h
    · rw [if_neg hm]; exact h

/-- The line loop keeps the keys duplicate-free. -/
theorem scanFileGo_nodup (path : PPath) (pats : List PatternSpec) :
    ∀ (lines : List Line) (idx : Nat) (acc : List (String × List Finding)),
      (keysOf acc).Nodup → (keysOf (scanFileGo path pats idx acc lines)).Nodup := by
  intro lines
  induction lines with
  | nil => intro _ acc h; exact h
  | cons l rest ih =>
    intro idx acc h
    rw [scanFileGo]
    exact ih _ _ (scanLinePats_nodup path idx l pats acc h)

/-- The line loop keeps every value list nonempty. -/
theorem scanFileGo_vals (path : PPath) (pats : List PatternSpec) :
    ∀ (lines : List Line) (idx : Nat) (acc : List (String × List Finding)),
      (∀ p ∈ acc, p.2 ≠ []) →
      ∀ p ∈ scanFileGo path pats idx acc lines, p.2 ≠ [] := by
  intro lines
  induction lines with
  | nil => intro _ acc h; exact h
  | cons l rest ih =>
    intro idx acc h
    rw [scanFileGo]
    exact ih _ _ (scanLinePats_vals path idx l pats acc h)

/-- The findings mapping of one file has duplicate-free keys. -/
theorem scanFile_nodup (path : PPath) (pats : List PatternSpec) (lines : List Line) :
    (keysOf (scanFile path pats lines)).Nodup :=
  scanFileGo_nodup path pats lines 1 [] (by simp [keysOf])

/-- The findings mapping of one file has only nonempty value lists. -/
theorem scanFile_vals (path : PPath) (pats : List PatternSpec) (lines : List Line) :
    ∀ p ∈ scanFile path pats lines, p.2 ≠ [] :=
  scanFileGo_vals path pats lines 1 [] (by simp)

/-- Adding one file to the totals adds exactly its per-pattern match counts. -/
theorem updTotals_eq :
    ∀ (ff : List (String × List Finding)), (keysOf ff).Nodup →
      ∀ (t : String → Nat) (q : String),
        updTotals t ff q = t q + ((alookup q ff).getD []).length := by
  intro ff
  induction ff with
  | nil => intro _ t q; simp [updTotals, alookup]
  | cons kv rest ih =>
    obtain ⟨n, v⟩ := kv
    intro hnd t q
    have hnd' : (n :: List.map Prod.fst rest).Nodup := hnd
    have hmem := (List.nodup_cons.mp hnd').1
    have htail : (keysOf rest).Nodup := (List.nodup_cons.mp hnd').2
    rw [updTotals, ih htail]
    by_cases hq : q = n
    · subst hq
      rw [alookup_not_mem hmem]
      simp [alookup]
    · have h2 : ¬ n = q := fun hh => hq hh.symm
      simp [alookup, hq, h2]

/-- Sum over the files mapping of the match counts recorded under one pattern
key. -/
def sumFind (q : String) (files : List (String × List (String × List Finding))) : Nat :=
  (files.map (fun e => ((alookup q e.2).getD []).length)).sum

/-- Appending one files entry adds its count to the sum. -/
theorem sumFind_append (q : String) (xs : List (String × List (String × List Finding)))
    (y : String × List (String × List Finding)) :
    sumFind q (xs ++ [y]) = sumFind q xs + ((alookup q y.2).getD []).length := by
  simp [sumFind]

/-- Invariant of the build loop: the totals track the sums over the collected
files mapping. -/
theorem buildFT_totals (root : PPath) (pats : List PatternSpec) :
    ∀ (tree : List FsEntry) (accF : List (String × List (String × List Finding)))
      (accT : String → Nat),
      (∀ q, accT q = sumFind q accF) →
      ∀ q, (buildFT root pats accF accT tree).2 q
        = sumFind q (buildFT root pats accF accT tree).1 := by
  intro tree
  induction tree with
  | nil => intro accF accT h q; exact h q
  | cons e rest ih =>
    intro accF accT h q
    rw [buildFT]
    by_cases hff : (scanFile ⟨root.absolute, root.parts ++ e.parts⟩ pats e.lines).isEmpty = true
    · rw [if_pos hff]; exact ih accF accT h q
    · rw [if_neg hff]
      apply ih
      intro q'
      rw [updTotals_eq _ (scanFile_nodup _ _ _) accT q', h q', sumFind_append]

/-- Invariant of the build loop: every collected files entry is nonempty. -/
theorem buildFT_nonempty (root : PPath) (pats : List PatternSpec) :
    ∀ (tree : List FsEntry) (accF : List (String × List (String × List Finding)))
      (accT : String → Nat),
      (∀ p ∈ accF, p.2 ≠ []) →
      ∀ p ∈ (buildFT root pats accF accT tree).1, p.2 ≠ [] := by
  intro tree
  induction tree with
  | nil => intro accF accT h; exact h
  | cons e rest ih =>
    intro accF accT h
    rw [buildFT]
    by_cases hff : (scanFile ⟨root.absolute, root.parts ++ e.parts⟩ pats e.lines).isEmpty = true
    · rw [if_pos hff]; exact ih accF accT h
    · rw [if_neg hff]
      apply ih
      intro p hp
      rcases List.mem_append.1 hp with hp1 | hp2
      · exact h p hp1
      · rw [List.mem_singleton] at hp2
        subst hp2
        show scanFile ⟨root.absolute, root.parts ++ e.parts⟩ pats e.lines ≠ []
        intro hnil
        exact hff (by rw [hnil]; rfl)

/-- C8: in every built report, the total recorded for any pattern name equals
the sum over the files mapping of the match counts listed under that key, and
the files mapping holds no entry with an empty findings mapping. -/
theorem reportTotalsInvariant (root : PPath) (sel : Option (List String))
    (tree : List FsEntry) (rep : Report)
    (h : buildReport root sel tree = .ok rep) :
    (∀ q, rep.totals q = sumFind q rep.files) ∧ (∀ p ∈ rep.files, p.2 ≠ []) := by
  rw [buildReport] at h
  by_cases hp : (selectedPatterns sel).isEmpty = true
  · rw [if_pos hp] at h; cases h
  · rw [if_neg hp] at h
    injection h with h
    subst h
    constructor
    · exact fun q => buildFT_totals root (selectedPatterns sel)
        (iterSourceFiles root tree) [] (fun _ => 0) (fun _ => rfl) q
    · exact buildFT_nonempty root (selectedPatterns sel)
        (iterSourceFiles root tree) [] (fun _ => 0) (fun p hp => absurd hp (List.not_mem_nil p))

/-- The one-file report used to witness C8: a Kotlin file whose single line
triggers the room_annotations pattern once. -/
def c8Rep : Report :=
  { root := pathStrP ⟨true, ["r"]⟩,
    patternsMeta := (selectedPatterns none).map (fun p => (p.name, p.description, p.tags)),
    files := [("A.kt", [("room_annotations", [⟨1, "@Dao".toList⟩])])],
    totals := updTotals (fun _ => 0) [("room_annotations", [⟨1, "@Dao".toList⟩])] }

/-- Witness for C8 at a concrete one-file tree. -/
theorem reportTotalsInvariant_witness :
    buildReport ⟨true, ["r"]⟩ none [⟨["A.kt"], true, ["@Dao".toList]⟩] = .ok c8Rep
      ∧ ((∀ q, c8Rep.totals q = sumFind q c8Rep.files) ∧ (∀ p ∈ c8Rep.files, p.2 ≠ [])) :=
  ⟨rfl, reportTotalsInvariant ⟨true, ["r"]⟩ none [⟨["A.kt"], true, ["@Dao".toList]⟩] c8Rep rfl⟩

-- Counting lemmas for the exported-component loop of the manifest audit.

/-- The findings counted for C4: a MEDIUM Android Security finding carrying
the 1-based number of the line at 0-based index n. -/
def exportedCountPred (n : Nat) (iss : Issue) : Bool :=
  iss.severity == "MEDIUM" && iss.category == "Android Security" && iss.lineNum == n + 1

/-- One step of the exported-component loop: the head line contributes its
finding exactly when it is evaluated, holds the exported token and has no
safe context, and the loop continues in the stepped comment state. -/
theorem manifestGo_cons (all : List Line) (i : Nat) (s : Bool) (line : Line)
    (rest : List Line) :
    manifestGo all i s (line :: rest)
      = (if evaluatedB s line && containsSub exportedTok line
            && !isSafeContext (contextAt all i line) then [exportedIssue i] else [])
        ++ manifestGo all (i + 1) (manifestStep s line) rest := by
  cases hc : containsSub commentCloseTok line with
  | true => simp [manifestGo, manifestStep, evaluatedB, hc]
  | false =>
    cases hs : (s || containsSub commentOpenTok line) with
    | true => simp [manifestGo, manifestStep, evaluatedB, hc, hs]
    | false =>
      cases hx : containsSub exportedTok line with
      | false => simp [manifestGo, manifestStep, evaluatedB, hc, hs, hx]
      | true =>
        cases hsafe : isSafeContext (contextAt all i line) with
        | false => simp [manifestGo, manifestStep, evaluatedB, hc, hs, hx, hsafe]
        | true => simp [manifestGo, manifestStep, evaluatedB, hc, hs, hx, hsafe]

/-- The loop starting at index i emits no finding numbered at or below i. -/
theorem manifestGo_count_lt (all : List Line) :
    ∀ (rest : List Line) (i : Nat) (s : Bool) (n : Nat), n < i →
      (manifestGo all i s rest).countP (exportedCountPred n) = 0 := by
  intro rest
  induction rest with
  | nil => intro i s n _; rfl
  | cons line r ih =>
    intro i s n h
    rw [manifestGo_cons, List.countP_append, ih (i + 1) _ n (Nat.lt_succ_of_lt h)]
    have hp : exportedCountPred n (exportedIssue i) = false := by
      simp only [exportedCountPred, exportedIssue]
      have : (i + 1 == n + 1) = false := by
        rw [beq_eq_false_iff_ne]
        omega
      simp [this]
    cases hcond : (evaluatedB s line && containsSub exportedTok line
        && !isSafeContext (contextAt all i line)) with
    | true => simp [hcond, List.countP_cons, hp]
    | false => simp [hcond]

/-- The count of findings numbered i plus k plus one equals the flag of the
loop for the line k steps on. -/
theorem manifestGo_count (all : List Line) :
    ∀ (rest : List Line) (i : Nat) (s : Bool) (k : Nat),
      (manifestGo all i s rest).countP (exportedCountPred (i + k))
        = if flagGo all i s k rest then 1 else 0 := by
  intro rest
  induction rest with
  | nil => intro i s k; simp [manifestGo, flagGo]
  | cons line r ih =>
    intro i s k
    rw [manifestGo_cons, List.countP_append]
    cases k with
    | zero =>
      rw [Nat.add_zero, manifestGo_count_lt all r (i + 1) _ i (Nat.lt_succ_self i)]
      have hp : exportedCountPred i (exportedIssue i) = true := by
        simp [exportedCountPred, exportedIssue]
      cases hcond : (evaluatedB s line && containsSub exportedTok line
          && !isSafeContext (contextAt all i line)) with
      | true => simp [hcond, List.countP_cons, hp, flagGo]
      | false => simp [hcond, flagGo]
    | succ k' =>
      have hp : exportedCountPred (i + (k' + 1)) (exportedIssue i) = false := by
        simp only [exportedCountPred, exportedIssue]
        have : (i + 1 == i + (k' + 1) + 1) = false := by
          rw [beq_eq_false_iff_ne]
          omega
        simp [this]
      have harith : i + (k' + 1) = (i + 1) + k' := by omega
      rw [harith, ih (i + 1) (manifestStep s line) k']
      cases hcond : (evaluatedB s line && containsSub exportedTok line
          && !isSafeContext (contextAt all i line)) with
      | true =>
        rw [harith] at hp
        simp [hcond, List.countP_cons, hp, flagGo]
      | false => simp [hcond, flagGo]

/-- The flag of the loop for the line k steps on, unrolled to the comment
state accumulated over the first k lines. -/
theorem flagGo_spec (all : List Line) :
    ∀ (rest : List Line) (i : Nat) (s : Bool) (k : Nat), k < rest.length →
      flagGo all i s k rest
        = (evaluatedB ((rest.take k).foldl manifestStep s) (rest.getD k [])
            && containsSub exportedTok (rest.getD k [])
            && !isSafeContext (contextAt all (i + k) (rest.getD k []))) := by
  intro rest
  induction rest with
  | nil => intro i s k h; exact absurd h (Nat.not_lt_zero k)
  | cons line r ih =>
    intro i s k h
    cases k with
    | zero => simp [flagGo]
    | succ k' =>
      have h' : k' < r.length := Nat.lt_of_succ_lt_succ h
      have harith : i + (k' + 1) = (i + 1) + k' := by omega
      simp only [flagGo, List.take_succ_cons, List.foldl_cons, List.getD_cons_succ, harith]
      exact ih (i + 1) (manifestStep s line) k' h'

/-- C4: for a manifest line at 0-based index n that the comment heuristic
evaluates (the notion of not being inside an XML comment block that the
scanner and the specification define) and that holds the exported attribute:
the audit emits no MEDIUM Android Security finding numbered n plus one when
the context of the line and its two predecessors holds an allow-listed
component name, and exactly one such finding otherwise. -/
theorem exportedComponentFindings (lines : List Line) (n : Nat)
    (hn : n < lines.length)
    (hev : manifestLineEvaluated lines n = true)
    (hex : containsSub exportedTok (lines.getD n []) = true) :
    (auditAndroidManifest lines).countP (exportedCountPred n)
      = if isSafeContext (contextAt lines n (lines.getD n [])) then 0 else 1 := by
  rw [auditAndroidManifest, List.countP_append, List.countP_append]
  have hzero : (0 == n + 1) = false := by
    rw [beq_eq_false_iff_ne]
    omega
  have h1 : (if lines.any (fun l => containsSub backupTok l) then
      [(⟨"HIGH", "Android Security", "AndroidManifest.xml", 0, backupMsg⟩ : Issue)]
    else []).countP (exportedCountPred n) = 0 := by
    cases hc : lines.any (fun l => containsSub backupTok l) with
    | true => simp [hc, List.countP_cons, exportedCountPred, hzero]
    | false => simp [hc]
  have h2 : (if lines.any (fun l => containsSub debugTok l) then
      [(⟨"CRITICAL", "Android Security", "AndroidManifest.xml", 0, debugMsg⟩ : Issue)]
    else []).countP (exportedCountPred n) = 0 := by
    cases hc : lines.any (fun l => containsSub debugTok l) with
    | true => simp [hc, List.countP_cons, exportedCountPred, hzero]
    | false => simp [hc]
  rw [h1, h2]
  have hgo := manifestGo_count lines lines 0 false n
  rw [Nat.zero_add] at hgo
  rw [hgo, flagGo_spec lines lines 0 false n hn]
  simp only [Nat.zero_add]
  rw [manifestLineEvaluated, manifestStateAt] at hev
  rw [hev, hex]
  cases isSafeContext (contextAt lines n (lines.getD n [])) with
  | true => simp
  | false => simp

/-- The manifest lines used to witness C4: an exported activity whose 2-line
lookback context holds no allow-listed name. -/
def c4Lines : List Line :=
  ["<activity".toList,
   "  android:name=\".ShareActivity\"".toList,
   "  android:exported=\"true\">".toList]

/-- Witness for C4 at index 2 of the concrete manifest: the line is
evaluated, holds the exported token, its context holds no allow-listed name,
and exactly one MEDIUM finding numbered 3 is emitted. -/
theorem exportedComponentFindings_witness :
    (2 < c4Lines.length
        ∧ manifestLineEvaluated c4Lines 2 = true
        ∧ containsSub exportedTok (c4Lines.getD 2 []) = true)
      ∧ (auditAndroidManifest c4Lines).countP (exportedCountPred 2)
          = if isSafeContext (contextAt c4Lines 2 (c4Lines.getD 2 [])) then 0 else 1 :=
  ⟨⟨by decide, by decide, by decide⟩,
    exportedComponentFindings c4Lines 2 (by decide) (by decide) (by decide)⟩

end GenPwd
